import Mathlib

/-!
A verification development for the help-chat scanning/reporting core of
commanderbot-ext (`commanderbot_ext/help_chat/help_chat_report.py` and
`commanderbot_ext/help_chat/help_chat_nom_context.py`).

The Python code is shallowly embedded: Python `int` becomes `Int`,
`str` becomes `String` (Python `len` and Lean `String.length` both count
code points), `Optional[T]` becomes `Option T`, dict insertion order is
modelled with association lists, and the `async` scan loop of
`HelpChatReportBuildContext.build` becomes a pure recursion that returns
the list of progress snapshots it sent together with either the final
report or the propagated fetch error.
-/

namespace CommanderBot

/-- `HelpChatSummaryOptions` (help_chat_report.py, lines 39-43): a plain
dataclass holding `split_length`, `max_rows` and `min_score`. -/
structure HelpChatSummaryOptions where
  split_length : Int
  max_rows : Int
  min_score : Int
deriving DecidableEq

/-- The dataclass-generated constructor of `HelpChatSummaryOptions`.  The
result is wrapped in `Except` so that "construction fails" is expressible;
the generated `__init__` performs no validation and never raises, so the
constructor always returns `Except.ok`. -/
def mkHelpChatSummaryOptions (split_length max_rows min_score : Int) :
    Except String HelpChatSummaryOptions :=
  Except.ok ⟨split_length, max_rows, min_score⟩

/-- The loop of `HelpChatReport.batch_summary_text` (help_chat_report.py,
lines 96-105; `HelpChatNomContext.batch_summary_text` in
help_chat_nom_context.py lines 113-123 is identical):
`batch` is the accumulator; for each line the code forms
`would_be_text = batch + "\n" + line`; if its length is within
`split_length` it becomes the new accumulator, otherwise the current
accumulator is yielded and the accumulator restarts as the bare line.
After the loop a truthy (non-empty) accumulator is yielded. -/
def batchGo (splitLength : Int) (batch : String) : List String → List String
  | [] => if batch = "" then [] else [batch]
  | line :: rest =>
      let would_be_text := batch ++ "\n" ++ line
      if (would_be_text.length : Int) ≤ splitLength then
        batchGo splitLength would_be_text rest
      else
        batch :: batchGo splitLength line rest

/-- `HelpChatReport.batch_summary_text`: the batching generator started
with the empty accumulator. -/
def batchSummaryText (splitLength : Int) (lines : List String) : List String :=
  batchGo splitLength "" lines

/-- Newline-joining of a sequence of lines, used to state the round-trip
and batch-shape properties. -/
def joinNL : List String → String
  | [] => ""
  | [l] => l
  | l :: ls => l ++ "\n" ++ joinNL ls

theorem joinNL_cons (a : String) (l : List String) (h : l ≠ []) :
    joinNL (a :: l) = a ++ "\n" ++ joinNL l := by
  cases l with
  | nil => exact absurd rfl h
  | cons b bs => rfl

theorem String.ne_empty_of_length_pos {s : String} (h : 0 < s.length) : s ≠ "" := by
  intro hs
  rw [hs] at h
  simp at h

theorem append_nl_ne_empty (b line : String) : b ++ "\n" ++ line ≠ "" := by
  apply String.ne_empty_of_length_pos
  have h : ("\n" : String).length = 1 := rfl
  simp [String.length_append, h]

theorem joinNL_append_singleton (cur : List String) (line : String) (h : cur ≠ []) :
    joinNL (cur ++ [line]) = joinNL cur ++ "\n" ++ line := by
  induction cur with
  | nil => exact absurd rfl h
  | cons a as ih =>
      cases as with
      | nil => rfl
      | cons b bs =>
          have hne : (b :: bs : List String) ≠ [] := by simp
          have hne2 : (b :: bs) ++ [line] ≠ [] := by simp
          rw [List.cons_append, joinNL_cons a _ hne2, ih hne, joinNL_cons a _ hne]
          simp [String.append_assoc]

theorem batchGo_ne_nil (sl : Int) (rest : List String) (b : String) (hb : b ≠ "") :
    batchGo sl b rest ≠ [] := by
  induction rest generalizing b with
  | nil => simp [batchGo, hb]
  | cons line rest ih =>
      simp only [batchGo]
      split
      · exact ih _ (append_nl_ne_empty b line)
      · simp

theorem joinNL_batchGo (sl : Int) (rest : List String) (b : String) (hb : b ≠ "")
    (hl : ∀ l ∈ rest, l ≠ "") :
    joinNL (batchGo sl b rest) = joinNL (b :: rest) := by
  induction rest generalizing b with
  | nil => simp [batchGo, hb, joinNL]
  | cons line rest ih =>
      have hline : line ≠ "" := hl line (by simp)
      have hrest : ∀ l ∈ rest, l ≠ "" := fun l hm => hl l (by simp [hm])
      simp only [batchGo]
      split
      · rw [ih _ (append_nl_ne_empty b line) hrest]
        cases rest with
        | nil => simp [joinNL]
        | cons c cs =>
            have h1 : (line :: c :: cs : List String) ≠ [] := by simp
            have h2 : (c :: cs : List String) ≠ [] := by simp
            rw [joinNL_cons _ _ h2, joinNL_cons _ _ h1, joinNL_cons _ _ h2]
            simp [String.append_assoc]
      · have hgo : batchGo sl line rest ≠ [] := batchGo_ne_nil sl rest line hline
        rw [joinNL_cons _ _ hgo, ih _ hline hrest,
          joinNL_cons _ _ (by simp : (line :: rest : List String) ≠ [])]

theorem joinNL_cons_prepend_nl (l0 : String) (rest : List String) :
    joinNL (("\n" ++ l0) :: rest) = "\n" ++ joinNL (l0 :: rest) := by
  cases rest with
  | nil => rfl
  | cons c cs =>
      have h : (c :: cs : List String) ≠ [] := by simp
      rw [joinNL_cons _ _ h, joinNL_cons _ _ h]
      simp [String.append_assoc]

/-- C1 — corrected.  The code computes `would_be_text = batch + "\n" + line`
even when the accumulator is still empty, so the very first batch picks up a
spurious leading newline (and, when the first comparison already overflows,
an initial empty-string batch is emitted).  Joining the batches with
newlines therefore reconstructs the original line sequence *with one extra
leading newline*.  (The extra hypothesis that each line is non-empty is
needed because a trailing flushed empty line is dropped by the final
truthiness check `if batch:`; the summary lines fed to this batcher are
never empty.) -/
theorem batchSummaryText_roundtrip_leading_newline
    (lines : List String) (splitLength : Int)
    (hne : lines ≠ []) (hblank : ∀ l ∈ lines, l ≠ "")
    (_hlen : ∀ l ∈ lines, (l.length : Int) ≤ splitLength) :
    joinNL (batchSummaryText splitLength lines) = "\n" ++ joinNL lines := by
  cases lines with
  | nil => exact absurd rfl hne
  | cons l0 rest =>
      have hl0 : l0 ≠ "" := hblank l0 (by simp)
      have hrest : ∀ l ∈ rest, l ≠ "" := fun l hm => hblank l (by simp [hm])
      show joinNL (batchGo splitLength "" (l0 :: rest)) = _
      simp only [batchGo, String.empty_append]
      split
      · rw [joinNL_batchGo splitLength rest ("\n" ++ l0)
          (by simpa using append_nl_ne_empty "" l0) hrest]
        exact joinNL_cons_prepend_nl l0 rest
      · have hgo : batchGo splitLength l0 rest ≠ [] := batchGo_ne_nil _ _ _ hl0
        rw [joinNL_cons _ _ hgo, joinNL_batchGo splitLength rest l0 hl0 hrest,
          String.empty_append]

/-- Witness for C1's theorem at a concrete input. -/
theorem batchSummaryText_roundtrip_leading_newline_witness :
    (["ab", "c"] : List String) ≠ [] ∧
    (∀ l ∈ (["ab", "c"] : List String), l ≠ "") ∧
    (∀ l ∈ (["ab", "c"] : List String), (l.length : Int) ≤ 10) ∧
    joinNL (batchSummaryText 10 ["ab", "c"]) = "\n" ++ joinNL ["ab", "c"] :=
  ⟨by decide, by decide, by decide,
    batchSummaryText_roundtrip_leading_newline ["ab", "c"] 10 (by decide)
      (by decide) (by decide)⟩

/-- C1 — counterexample to the claim as stated: a single line `"a"` of
length 1 with `maxLength = 10` satisfies the claim's hypotheses, yet the
newline-join of the batches is `"\na"`, not the original `"a"`. -/
theorem batchSummaryText_roundtrip_exact_fails :
    (["a"] : List String) ≠ [] ∧
    (∀ l ∈ (["a"] : List String), (l.length : Int) ≤ 10) ∧
    joinNL (batchSummaryText 10 ["a"]) ≠ joinNL ["a"] :=
  ⟨by decide, by decide, by decide⟩

theorem append_nl_length (b line : String) :
    (b ++ "\n" ++ line).length = b.length + 1 + line.length := by
  have h : ("\n" : String).length = 1 := rfl
  simp [String.length_append, h]

theorem batchGo_length_le (sl : Int) (rest : List String) (b : String)
    (hb : (b.length : Int) ≤ sl) (hl : ∀ l ∈ rest, (l.length : Int) ≤ sl) :
    ∀ x ∈ batchGo sl b rest, (x.length : Int) ≤ sl := by
  induction rest generalizing b with
  | nil =>
      intro x hx
      by_cases hbe : b = ""
      · simp [batchGo, hbe] at hx
      · simp [batchGo, hbe] at hx
        simpa [hx] using hb
  | cons line rest ih =>
      intro x hx
      have hline : (line.length : Int) ≤ sl := hl line (by simp)
      have hrest : ∀ l ∈ rest, (l.length : Int) ≤ sl := fun l hm => hl l (by simp [hm])
      simp only [batchGo] at hx
      split at hx
      next hguard => exact ih _ hguard hrest x hx
      next hguard =>
        rcases List.mem_cons.mp hx with h | h
        · simpa [h] using hb
        · exact ih _ hline hrest x h

theorem batchGo_self_mem (sl : Int) (rest : List String) (line : String)
    (hpos : 0 < sl) (hlen : sl < (line.length : Int)) :
    line ∈ batchGo sl line rest := by
  cases rest with
  | nil =>
      have hne : line ≠ "" := by
        apply String.ne_empty_of_length_pos
        have : (0 : Int) < (line.length : Int) := lt_trans hpos hlen
        exact_mod_cast this
      simp [batchGo, hne]
  | cons c cs =>
      have hflush : ¬ (((line ++ "\n" ++ c).length : Int) ≤ sl) := by
        rw [append_nl_length]
        push_cast
        omega
      simp only [batchGo]
      rw [if_neg hflush]
      exact List.mem_cons_self _ _

theorem batchGo_oversized_mem (sl : Int) (hpos : 0 < sl) (rest : List String) :
    ∀ b : String, ∀ l ∈ rest, sl < (l.length : Int) → l ∈ batchGo sl b rest := by
  induction rest with
  | nil => simp
  | cons line rest ih =>
      intro b l hl hlen
      simp only [batchGo]
      rcases List.mem_cons.mp hl with rfl | hmem
      · have hflush : ¬ (((b ++ "\n" ++ l).length : Int) ≤ sl) := by
          rw [append_nl_length]
          push_cast
          omega
        rw [if_neg hflush]
        exact List.mem_cons_of_mem _ (batchGo_self_mem sl rest l hpos hlen)
      · split
        · exact ih _ l hmem hlen
        · exact List.mem_cons_of_mem _ (ih _ l hmem hlen)

theorem drop_append_shift {α : Type} (cur X : List α) (i : Nat) :
    (cur ++ X).drop (cur.length + i) = X.drop i := by
  rw [← List.drop_drop, List.drop_left]

theorem segment_shift (cur X : List String) (b : String)
    (h : ∃ i k, ((X.drop i).take k) ≠ [] ∧ b = joinNL ((X.drop i).take k)) :
    ∃ i k, (((cur ++ X).drop i).take k) ≠ [] ∧
      b = joinNL (((cur ++ X).drop i).take k) := by
  obtain ⟨i, k, h1, h2⟩ := h
  exact ⟨cur.length + i, k, by rw [drop_append_shift]; exact h1,
    by rw [drop_append_shift]; exact h2⟩

theorem batchGo_tail_segments (sl : Int) :
    ∀ (rest cur : List String), cur ≠ [] →
    ∀ b ∈ batchGo sl (joinNL cur) rest,
      ∃ i k, (((cur ++ rest).drop i).take k) ≠ [] ∧
        b = joinNL (((cur ++ rest).drop i).take k) := by
  intro rest
  induction rest with
  | nil =>
      intro cur hcur b hb
      by_cases hje : joinNL cur = ""
      · simp [batchGo, hje] at hb
      · simp [batchGo, hje] at hb
        exact ⟨0, cur.length, by simpa using hcur, by simpa using hb⟩
  | cons line rest ih =>
      intro cur hcur b hb
      simp only [batchGo] at hb
      split at hb
      next hguard =>
        rw [← joinNL_append_singleton cur line hcur] at hb
        have h := ih (cur ++ [line]) (by simp) b hb
        simpa [List.append_assoc] using h
      next hguard =>
        rcases List.mem_cons.mp hb with rfl | hmem
        · refine ⟨0, cur.length, ?_, ?_⟩
          · rw [List.drop_zero, List.take_left' rfl]
            exact hcur
          · rw [List.drop_zero, List.take_left' rfl]
        · have h := ih [line] (by simp) b (by simpa [joinNL] using hmem)
          exact segment_shift cur (line :: rest) b h

theorem batchGo_head_segments (sl : Int) :
    ∀ (rest cur : List String), cur ≠ [] →
    ∃ k tl, k ≠ 0 ∧
      batchGo sl ("\n" ++ joinNL cur) rest =
        ("\n" ++ joinNL ((cur ++ rest).take k)) :: tl ∧
      ∀ b ∈ tl, ∃ i k2, (((cur ++ rest).drop i).take k2) ≠ [] ∧
        b = joinNL (((cur ++ rest).drop i).take k2) := by
  intro rest
  induction rest with
  | nil =>
      intro cur hcur
      have hne : ("\n" ++ joinNL cur) ≠ "" := by
        apply String.ne_empty_of_length_pos
        have h : ("\n" : String).length = 1 := rfl
        simp [String.length_append, h]
      refine ⟨cur.length, [], by simpa using hcur, ?_, by simp⟩
      simp [batchGo, hne]
  | cons line rest ih =>
      intro cur hcur
      simp only [batchGo]
      split
      next hguard =>
        have hacc : ("\n" ++ joinNL cur) ++ "\n" ++ line = "\n" ++ joinNL (cur ++ [line]) := by
          rw [joinNL_append_singleton cur line hcur]
          simp [String.append_assoc]
        rw [hacc]
        have h := ih (cur ++ [line]) (by simp)
        simpa [List.append_assoc] using h
      next hguard =>
        refine ⟨cur.length, batchGo sl line rest, by simpa using hcur, ?_, ?_⟩
        · rw [List.take_left' rfl]
        · intro b hb
          have h := batchGo_tail_segments sl rest [line] (by simp) b
            (by simpa [joinNL] using hb)
          exact segment_shift cur (line :: rest) b h

/-- C3 — amended.  Every batch *after the first* is the newline-join of one
or more consecutive input lines; the *first* batch is either the empty
string (emitted when the very first length check already overflows) or a
spurious leading newline followed by the newline-join of the first `k`
input lines, because the code prepends `"\n"` even to the empty
accumulator.  The length bound (`≤ maxLength` whenever no single line
exceeds `maxLength`) and the single-oversized-line behavior hold exactly as
claimed. -/
theorem batchSummaryText_batch_shape (lines : List String) (splitLength : Int)
    (hpos : 0 < splitLength) :
    (batchSummaryText splitLength lines = [] ∨
      ∃ hd tl, batchSummaryText splitLength lines = hd :: tl ∧
        (hd = "" ∨ ∃ k, k ≠ 0 ∧ hd = "\n" ++ joinNL (lines.take k)) ∧
        ∀ b ∈ tl, ∃ i k, ((lines.drop i).take k) ≠ [] ∧
          b = joinNL ((lines.drop i).take k)) ∧
    ((∀ l ∈ lines, (l.length : Int) ≤ splitLength) →
      ∀ b ∈ batchSummaryText splitLength lines, (b.length : Int) ≤ splitLength) ∧
    (∀ l ∈ lines, splitLength < (l.length : Int) →
      l ∈ batchSummaryText splitLength lines) := by
  refine ⟨?_, ?_, ?_⟩
  · cases lines with
    | nil => left; simp [batchSummaryText, batchGo]
    | cons l0 rest =>
        by_cases hguard : ((("\n" ++ l0).length : Int) ≤ splitLength)
        · have hrw : batchSummaryText splitLength (l0 :: rest) =
              batchGo splitLength ("\n" ++ l0) rest := by
            simp only [batchSummaryText, batchGo, String.empty_append]
            rw [if_pos hguard]
          rw [hrw]
          right
          have h := batchGo_head_segments splitLength rest [l0] (by simp)
          obtain ⟨k, tl, hk, heq, htl⟩ := h
          exact ⟨_, tl, heq, Or.inr ⟨k, hk, rfl⟩, htl⟩
        · have hrw : batchSummaryText splitLength (l0 :: rest) =
              "" :: batchGo splitLength l0 rest := by
            simp only [batchSummaryText, batchGo, String.empty_append]
            rw [if_neg hguard]
          rw [hrw]
          right
          refine ⟨"", batchGo splitLength l0 rest, rfl, Or.inl rfl, ?_⟩
          intro b hb
          exact batchGo_tail_segments splitLength rest [l0] (by simp) b
            (by simpa [joinNL] using hb)
  · intro hl b hb
    exact batchGo_length_le splitLength lines "" (by simpa using le_of_lt hpos) hl b hb
  · intro l hl hlen
    exact batchGo_oversized_mem splitLength hpos lines "" l hl hlen

/-- Witness for C3's theorem at a concrete input. -/
theorem batchSummaryText_batch_shape_witness :
    (0 : Int) < 10 ∧
    ((batchSummaryText 10 ["a"] = [] ∨
      ∃ hd tl, batchSummaryText 10 ["a"] = hd :: tl ∧
        (hd = "" ∨ ∃ k, k ≠ 0 ∧ hd = "\n" ++ joinNL ((["a"] : List String).take k)) ∧
        ∀ b ∈ tl, ∃ i k, (((["a"] : List String).drop i).take k) ≠ [] ∧
          b = joinNL (((["a"] : List String).drop i).take k)) ∧
    ((∀ l ∈ (["a"] : List String), (l.length : Int) ≤ 10) →
      ∀ b ∈ batchSummaryText 10 ["a"], (b.length : Int) ≤ 10) ∧
    (∀ l ∈ (["a"] : List String), (10 : Int) < (l.length : Int) →
      l ∈ batchSummaryText 10 ["a"])) :=
  ⟨by decide, batchSummaryText_batch_shape ["a"] 10 (by decide)⟩

/-- C3 — counterexample to the claim as stated: with `maxLength = 10 > 0`
and input `["a"]` the single emitted batch is `"\na"`, which is not the
newline-join of any non-empty run of consecutive input lines. -/
theorem batchSummaryText_batch_join_fails :
    (0 : Int) < 10 ∧
    ¬ (∀ b ∈ batchSummaryText 10 ["a"], ∃ i k,
        (((["a"] : List String).drop i).take k) ≠ [] ∧
        b = joinNL (((["a"] : List String).drop i).take k)) := by
  refine ⟨by decide, ?_⟩
  intro h
  have hbmem : ("\na" : String) ∈ batchSummaryText 10 ["a"] := by
    have heval : batchSummaryText 10 ["a"] = ["\na"] := by decide
    rw [heval]
    exact List.mem_cons_self _ _
  obtain ⟨i, k, hne2, heq⟩ := h "\na" hbmem
  rcases i with _ | i
  · rcases k with _ | k
    · simp at hne2
    · rw [show (((["a"] : List String).drop 0).take (k + 1)) = ["a"] by simp] at heq
      exact absurd heq (by decide)
  · rw [show ((["a"] : List String).drop (i + 1)) = [] by simp] at hne2
    simp at hne2

/-- C5 — the amended fact: the `HelpChatSummaryOptions` dataclass
constructor performs no validation at all; every argument triple, including
a non-positive `split_length`, is accepted. -/
theorem mkHelpChatSummaryOptions_total (split_length max_rows min_score : Int) :
    mkHelpChatSummaryOptions split_length max_rows min_score =
      Except.ok ⟨split_length, max_rows, min_score⟩ :=
  rfl

/-- C5 — counterexample to the claim as stated: constructing the options
with the non-positive `split_length = 0` succeeds instead of failing
fast. -/
theorem mkHelpChatSummaryOptions_accepts_nonpositive :
    (0 : Int) ≤ 0 ∧
    mkHelpChatSummaryOptions 0 25 10 = Except.ok ⟨0, 25, 10⟩ :=
  ⟨le_refl 0, rfl⟩

/-- `ChannelStatus` (help_chat_report.py, lines 17-20). -/
inductive ChannelStatus where
  | INCOMPLETE
  | IN_PROGRESS
  | COMPLETE
deriving DecidableEq

/-- The components of a Python `datetime` that the scanning core reads
(`created_at.year/.month/.day` for the daily key, and the dates rendered in
headers). -/
structure Timestamp where
  year : Int
  month : Int
  day : Int
deriving DecidableEq

/-- The fields of a discord `Message` that
`HelpChatReportBuildContext.build` reads: the author's id, the creation
instant and the textual content.  `content` is `none` when the attribute is
not a string (the code guards with `isinstance(content, str)`). -/
structure Message where
  authorId : Nat
  createdAt : Timestamp
  content : Option String
deriving DecidableEq

/-- The `(year, month, day)` daily-record key (help_chat_report.py,
lines 245-249). -/
abbrev DayKey := Int × Int × Int

/-- `UserTable = DefaultDict[IDType, DefaultDict[Tuple[int, int, int], int]]`
(help_chat_report.py, line 14), modelled as an insertion-ordered
association list. -/
abbrev UserTable := List (Nat × List (DayKey × Int))

instance : DecidableEq UserTable := List.hasDecEq

/-- `user_record[daily_key] += message_length` on one author's defaultdict
record: an existing key is incremented in place, a missing key is appended
(Python dicts iterate in insertion order). -/
def recordAdd (rec : List (DayKey × Int)) (key : DayKey) (n : Int) :
    List (DayKey × Int) :=
  match rec with
  | [] => [(key, n)]
  | (k, v) :: rest =>
      if k = key then (k, v + n) :: rest else (k, v) :: recordAdd rest key n

/-- `self._user_table[author.id]` followed by
`user_record[daily_key] += message_length` (help_chat_report.py,
lines 242-251): the outer defaultdict lookup creates the author's record on
first access (appended in insertion order). -/
def userTableAdd (tbl : UserTable) (uid : Nat) (key : DayKey) (n : Int) :
    UserTable :=
  match tbl with
  | [] => [(uid, [(key, n)])]
  | (u, rec) :: rest =>
      if u = uid then (u, recordAdd rec key n) :: rest
      else (u, rec) :: userTableAdd rest uid key n

/-- Pure observer: the accumulated score of one author on one day, if the
entry exists. -/
def recordLookup (rec : List (DayKey × Int)) (key : DayKey) : Option Int :=
  match rec with
  | [] => none
  | (k, v) :: rest => if k = key then some v else recordLookup rest key

/-- Pure observer: the table entry for one author and one day, if it
exists. -/
def tableLookup (tbl : UserTable) (uid : Nat) (key : DayKey) : Option Int :=
  match tbl with
  | [] => none
  | (u, rec) :: rest =>
      if u = uid then recordLookup rec key else tableLookup rest uid key

/-- The body of the `async for message in history` loop
(help_chat_report.py, lines 231-251), acting on the running
`(total_messages, total_message_length, user_table)` accumulator: messages
whose `content` is not a string are skipped entirely; otherwise both
channel counters and the author's daily record are updated with the
content's length. -/
def scanMsg (acc : Int × Int × UserTable) (m : Message) : Int × Int × UserTable :=
  match m.content with
  | none => acc
  | some content =>
      let message_length : Int := (content.length : Int)
      (acc.1 + 1, acc.2.1 + message_length,
        userTableAdd acc.2.2 m.authorId
          (m.createdAt.year, m.createdAt.month, m.createdAt.day) message_length)

/-- `ChannelState` (help_chat_report.py, lines 30-36); the channel itself
is identified by an id. -/
structure ChannelState where
  channelId : Nat
  status : ChannelStatus
  total_messages : Option Int
  total_message_length : Option Int
deriving DecidableEq

/-- One channel as `build` consumes it: its identity, the messages its
history iterator yields within the window, and — if the fetch capability
fails mid-channel — the error it raises after yielding those messages
(`none` when the scan of this channel succeeds). -/
structure ChannelInput where
  channelId : Nat
  history : List Message
  fetchError : Option Nat
deriving DecidableEq

/-- A freshly reset channel state (help_chat_report.py, lines 150-153):
status `INCOMPLETE`, both counters `None`. -/
def initChannelState (c : ChannelInput) : ChannelState :=
  ⟨c.channelId, ChannelStatus.INCOMPLETE, none, none⟩

/-- A progress snapshot: a copy of all channel states at the moment
`update()` renders the progress message. -/
abbrev Snapshot := List ChannelState

/-- `HelpChatReport` (help_chat_report.py, lines 46-52). -/
structure HelpChatReport where
  after : Timestamp
  before : Timestamp
  built_at : Timestamp
  channel_states : List ChannelState
  user_table : UserTable
deriving DecidableEq

/-- The per-channel loop of `HelpChatReportBuildContext.build`
(help_chat_report.py, lines 220-255).  `done` holds the states of the
channels already scanned, `tbl` the user table so far.  For each channel
the code marks it `IN_PROGRESS` and sends a progress snapshot (counters
are still `None` at that point), then zeroes the counters and folds the
history through `scanMsg`.  If the history iterator raises, the exception
propagates immediately: no further channel is touched, the failing channel
is never marked `COMPLETE`, and the error is returned together with the
frozen channel states and table.  Otherwise the channel is marked
`COMPLETE` *without* an extra snapshot and the loop continues. -/
def buildGo (done : List ChannelState) (tbl : UserTable) :
    List ChannelInput →
      List Snapshot × Except (Nat × List ChannelState × UserTable)
        (List ChannelState × UserTable)
  | [] => ([], Except.ok (done, tbl))
  | c :: cs =>
      let snap := done ++ ⟨c.channelId, ChannelStatus.IN_PROGRESS, none, none⟩ ::
        cs.map initChannelState
      let scanned := c.history.foldl scanMsg (0, 0, tbl)
      match c.fetchError with
      | some e =>
          ([snap],
            Except.error (e,
              done ++ ⟨c.channelId, ChannelStatus.IN_PROGRESS, some scanned.1,
                some scanned.2.1⟩ :: cs.map initChannelState,
              scanned.2.2))
      | none =>
          let out := buildGo
            (done ++ [⟨c.channelId, ChannelStatus.COMPLETE, some scanned.1,
              some scanned.2.1⟩])
            scanned.2.2 cs
          (snap :: out.1, out.2)

/-- `HelpChatReportBuildContext.build` (help_chat_report.py,
lines 211-265): reset, initial all-`INCOMPLETE` snapshot, the per-channel
loop, and — only on success — one final snapshot followed by the assembled
`HelpChatReport`.  On a fetch failure the exception (with the frozen
partial state) propagates and no report is produced. -/
def build (after before built_at : Timestamp) (channels : List ChannelInput) :
    List Snapshot × Except (Nat × List ChannelState × UserTable) HelpChatReport :=
  let snap0 := channels.map initChannelState
  match buildGo [] [] channels with
  | (snaps, Except.error e) => (snap0 :: snaps, Except.error e)
  | (snaps, Except.ok (sts, tbl)) =>
      (snap0 :: (snaps ++ [sts]), Except.ok ⟨after, before, built_at, sts, tbl⟩)

/-- The statuses visible in one snapshot, in channel input order. -/
def snapshotStatuses (snap : Snapshot) : List ChannelStatus :=
  snap.map (fun st => st.status)

theorem recordLookup_recordAdd (rec : List (DayKey × Int)) (key : DayKey) (n : Int) :
    recordLookup (recordAdd rec key n) key =
      some ((recordLookup rec key).getD 0 + n) := by
  induction rec with
  | nil => simp [recordAdd, recordLookup]
  | cons kv rest ih =>
      obtain ⟨k, v⟩ := kv
      by_cases hk : k = key
      · simp [recordAdd, recordLookup, hk]
      · simp [recordAdd, recordLookup, hk, ih]

theorem tableLookup_userTableAdd (tbl : UserTable) (uid : Nat) (key : DayKey) (n : Int) :
    tableLookup (userTableAdd tbl uid key n) uid key =
      some ((tableLookup tbl uid key).getD 0 + n) := by
  induction tbl with
  | nil => simp [userTableAdd, tableLookup, recordLookup]
  | cons ur rest ih =>
      obtain ⟨u, rec⟩ := ur
      by_cases hu : u = uid
      · simp [userTableAdd, tableLookup, hu, recordLookup_recordAdd]
      · simp [userTableAdd, tableLookup, hu, ih]

/-- C4 — amended.  A message whose `content` attribute is a string — *even
the empty string* — increments `total_messages` by exactly one, adds the
content's length to `total_message_length`, and adds the content's length
to the author's per-day table entry (creating the entry, possibly with
value 0, if absent).  Only a message whose `content` is not a string is
skipped, leaving the counters and the table completely unchanged. -/
theorem scanMsg_effect (n len : Int) (tbl : UserTable) (m : Message) :
    (∀ c, m.content = some c →
      scanMsg (n, len, tbl) m =
        (n + 1, len + (c.length : Int),
          userTableAdd tbl m.authorId
            (m.createdAt.year, m.createdAt.month, m.createdAt.day)
            (c.length : Int)) ∧
      tableLookup
          (userTableAdd tbl m.authorId
            (m.createdAt.year, m.createdAt.month, m.createdAt.day)
            (c.length : Int))
          m.authorId (m.createdAt.year, m.createdAt.month, m.createdAt.day) =
        some ((tableLookup tbl m.authorId
            (m.createdAt.year, m.createdAt.month, m.createdAt.day)).getD 0 +
          (c.length : Int))) ∧
    (m.content = none → scanMsg (n, len, tbl) m = (n, len, tbl)) := by
  constructor
  · intro c hc
    exact ⟨by simp [scanMsg, hc], tableLookup_userTableAdd tbl m.authorId _ _⟩
  · intro hc
    simp [scanMsg, hc]

/-- Witness for C4's theorem at a concrete input. -/
theorem scanMsg_effect_witness :
    (Message.mk 7 ⟨2024, 1, 1⟩ (some "abc")).content = some "abc" ∧
    scanMsg (0, 0, []) (Message.mk 7 ⟨2024, 1, 1⟩ (some "abc")) =
      (0 + 1, 0 + (("abc" : String).length : Int),
        userTableAdd [] 7 (2024, 1, 1) (("abc" : String).length : Int)) :=
  ⟨rfl, ((scanMsg_effect 0 0 [] (Message.mk 7 ⟨2024, 1, 1⟩ (some "abc"))).1
    "abc" rfl).1⟩

/-- C4 — counterexample to the claim as stated: an attachment-only message
(empty-string content) has no textual content, yet processing it changes
the channel counters (`total_messages` becomes 1) and inserts a zero entry
into the author table instead of leaving everything unchanged. -/
theorem scanMsg_empty_content_changes_state :
    (¬ ∃ c, (Message.mk 7 ⟨2024, 1, 1⟩ (some "")).content = some c ∧ c ≠ "") ∧
    scanMsg (0, 0, []) (Message.mk 7 ⟨2024, 1, 1⟩ (some "")) ≠
      ((0 : Int), (0 : Int), ([] : UserTable)) := by
  constructor
  · rintro ⟨c, hc, hne⟩
    have hc' : some "" = some c := hc
    injection hc' with hc''
    exact hne hc''.symm
  · decide

theorem map_initChannelState_statuses (cs : List ChannelInput) :
    (cs.map initChannelState).map (fun st => st.status) =
      List.replicate cs.length ChannelStatus.INCOMPLETE := by
  induction cs with
  | nil => rfl
  | cons c cs ih => simp [initChannelState, ih, List.replicate_succ]

/-- The snapshot statuses and the successful result of `buildGo` on an
error-free channel list, characterized in closed form. -/
theorem buildGo_ok_statuses (cs : List ChannelInput) :
    ∀ (done : List ChannelState) (tbl : UserTable),
      (∀ c ∈ cs, c.fetchError = none) →
      ((buildGo done tbl cs).1.map snapshotStatuses =
        (List.range cs.length).map (fun i =>
          done.map (fun st => st.status) ++
            List.replicate i ChannelStatus.COMPLETE ++
            ChannelStatus.IN_PROGRESS ::
              List.replicate (cs.length - 1 - i) ChannelStatus.INCOMPLETE)) ∧
      ∃ sts tbl2, (buildGo done tbl cs).2 = Except.ok (sts, tbl2) ∧
        sts.map (fun st => st.status) =
          done.map (fun st => st.status) ++
            List.replicate cs.length ChannelStatus.COMPLETE := by
  induction cs with
  | nil =>
      intro done tbl _
      exact ⟨by simp [buildGo], done, tbl, rfl, by simp⟩
  | cons c cs ih =>
      intro done tbl h
      have hc : c.fetchError = none := h c (by simp)
      have hrest : ∀ x ∈ cs, x.fetchError = none := fun x hm => h x (by simp [hm])
      obtain ⟨ih1, sts, tbl2, ihok, ih2⟩ :=
        ih (done ++ [⟨c.channelId, ChannelStatus.COMPLETE,
          some (c.history.foldl scanMsg (0, 0, tbl)).1,
          some (c.history.foldl scanMsg (0, 0, tbl)).2.1⟩])
          (c.history.foldl scanMsg (0, 0, tbl)).2.2 hrest
      constructor
      · simp only [buildGo, hc]
        rw [List.map_cons]
        simp only [List.length_cons]
        rw [List.range_succ_eq_map, List.map_cons]
        congr 1
        · show snapshotStatuses _ = _
          simp only [snapshotStatuses, List.map_append, List.map_cons,
            map_initChannelState_statuses]
          simp
        · rw [ih1, List.map_map]
          apply List.map_congr_left
          intro i _
          have harith : cs.length + 1 - 1 - (i + 1) = cs.length - 1 - i := by omega
          show List.map (fun st => st.status) (done ++ [_]) ++
              List.replicate i ChannelStatus.COMPLETE ++
              ChannelStatus.IN_PROGRESS ::
                List.replicate (cs.length - 1 - i) ChannelStatus.INCOMPLETE =
            List.map (fun st => st.status) done ++
              List.replicate (i + 1) ChannelStatus.COMPLETE ++
              ChannelStatus.IN_PROGRESS ::
                List.replicate (cs.length + 1 - 1 - (i + 1)) ChannelStatus.INCOMPLETE
          rw [harith, List.replicate_succ]
          simp [List.append_assoc]
      · refine ⟨sts, tbl2, ?_, ?_⟩
        · simp only [buildGo, hc]
          exact ihok
        · rw [ih2]
          simp [List.append_assoc, List.replicate_succ, List.length_cons]

/-- The full snapshot-status trace of a successful `build` run: the
all-`INCOMPLETE` snapshot, then for each channel `i` (in input order) one
snapshot with channels `0..i-1` `COMPLETE`, channel `i` `IN_PROGRESS` and
the rest `INCOMPLETE`, and finally the all-`COMPLETE` snapshot.  In
particular there is *no* snapshot in which a channel is `COMPLETE` while
every later channel is still `INCOMPLETE` and none is `IN_PROGRESS`: the
code deliberately skips the update at the `COMPLETE` transition. -/
theorem build_statuses (after before built_at : Timestamp)
    (channels : List ChannelInput) (h : ∀ c ∈ channels, c.fetchError = none) :
    ((build after before built_at channels).1).map snapshotStatuses =
      List.replicate channels.length ChannelStatus.INCOMPLETE ::
        ((List.range channels.length).map (fun i =>
          List.replicate i ChannelStatus.COMPLETE ++
            ChannelStatus.IN_PROGRESS ::
              List.replicate (channels.length - 1 - i) ChannelStatus.INCOMPLETE) ++
          [List.replicate channels.length ChannelStatus.COMPLETE]) := by
  obtain ⟨h1, sts, tbl2, hok, h2⟩ := buildGo_ok_statuses channels [] [] h
  rcases hbg : buildGo [] [] channels with ⟨snaps, res⟩
  rw [hbg] at h1 hok
  simp only at h1 hok
  subst hok
  simp only [build, hbg]
  rw [List.map_cons, List.map_append, h1]
  have hsts : snapshotStatuses sts =
      List.replicate channels.length ChannelStatus.COMPLETE := by
    simpa [snapshotStatuses] using h2
  have hinit : snapshotStatuses (channels.map initChannelState) =
      List.replicate channels.length ChannelStatus.INCOMPLETE := by
    simpa [snapshotStatuses] using map_initChannelState_statuses channels
  simp [hinit, hsts]

/-- C2 — amended.  For an error-free run the snapshots handed to the
progress sink are: the all-`PENDING` snapshot; then, for each channel in
input order, exactly *one* snapshot in which that channel is `SCANNING`
with all earlier channels `DONE` and all later ones `PENDING`; and finally
the all-`DONE` snapshot.  No snapshot is sent at a channel's `DONE`
transition itself, so a run over two channels produces exactly *four*
snapshots, not five. -/
theorem build_progress_snapshots (after before built_at : Timestamp)
    (channels : List ChannelInput) (h : ∀ c ∈ channels, c.fetchError = none) :
    ((build after before built_at channels).1).map snapshotStatuses =
      List.replicate channels.length ChannelStatus.INCOMPLETE ::
        ((List.range channels.length).map (fun i =>
          List.replicate i ChannelStatus.COMPLETE ++
            ChannelStatus.IN_PROGRESS ::
              List.replicate (channels.length - 1 - i) ChannelStatus.INCOMPLETE) ++
          [List.replicate channels.length ChannelStatus.COMPLETE]) :=
  build_statuses after before built_at channels h

/-- Witness for C2's theorem: a concrete two-channel, error-free run. -/
theorem build_progress_snapshots_witness :
    (∀ c ∈ ([⟨0, [], none⟩, ⟨1, [], none⟩] : List ChannelInput),
      c.fetchError = none) ∧
    ((build ⟨2024, 1, 1⟩ ⟨2024, 1, 3⟩ ⟨2024, 1, 3⟩
        [⟨0, [], none⟩, ⟨1, [], none⟩]).1).map snapshotStatuses =
      List.replicate 2 ChannelStatus.INCOMPLETE ::
        ((List.range 2).map (fun i =>
          List.replicate i ChannelStatus.COMPLETE ++
            ChannelStatus.IN_PROGRESS ::
              List.replicate (2 - 1 - i) ChannelStatus.INCOMPLETE) ++
          [List.replicate 2 ChannelStatus.COMPLETE]) :=
  ⟨by decide,
    build_progress_snapshots ⟨2024, 1, 1⟩ ⟨2024, 1, 3⟩ ⟨2024, 1, 3⟩
      [⟨0, [], none⟩, ⟨1, [], none⟩] (by decide)⟩

/-- C2 — counterexample to the claim as stated: a two-channel error-free
run sends four snapshots `[P,P],[S,P],[D,S],[D,D]` — the claimed
five-snapshot sequence with an extra `[DONE,PENDING]` snapshot does not
occur, because the code does not send an update at the `DONE`
transition. -/
theorem build_progress_snapshots_five_fails :
    ((build ⟨2024, 1, 1⟩ ⟨2024, 1, 3⟩ ⟨2024, 1, 3⟩
        [⟨0, [], none⟩, ⟨1, [], none⟩]).1).map snapshotStatuses ≠
      [[ChannelStatus.INCOMPLETE, ChannelStatus.INCOMPLETE],
       [ChannelStatus.IN_PROGRESS, ChannelStatus.INCOMPLETE],
       [ChannelStatus.COMPLETE, ChannelStatus.INCOMPLETE],
       [ChannelStatus.COMPLETE, ChannelStatus.IN_PROGRESS],
       [ChannelStatus.COMPLETE, ChannelStatus.COMPLETE]] := by decide

/-- The error path of `buildGo`: if every channel before `c` scans cleanly
and `c`'s history iterator raises `e`, the loop stops at `c` with the
error, the already-scanned channels `COMPLETE`, `c` still `IN_PROGRESS`
and every later channel untouched (`INCOMPLETE`). -/
theorem buildGo_error_statuses (pre : List ChannelInput) :
    ∀ (done : List ChannelState) (tbl : UserTable) (c : ChannelInput)
      (cs : List ChannelInput) (e : Nat),
      (∀ x ∈ pre, x.fetchError = none) → c.fetchError = some e →
      ∃ snaps sts tbl2,
        buildGo done tbl (pre ++ c :: cs) = (snaps, Except.error (e, sts, tbl2)) ∧
        sts.map (fun st => st.status) =
          done.map (fun st => st.status) ++
            List.replicate pre.length ChannelStatus.COMPLETE ++
            ChannelStatus.IN_PROGRESS ::
              List.replicate cs.length ChannelStatus.INCOMPLETE := by
  induction pre with
  | nil =>
      intro done tbl c cs e _ hc
      refine ⟨[done ++ ⟨c.channelId, ChannelStatus.IN_PROGRESS, none, none⟩ ::
          cs.map initChannelState],
        done ++ ⟨c.channelId, ChannelStatus.IN_PROGRESS,
          some (c.history.foldl scanMsg (0, 0, tbl)).1,
          some (c.history.foldl scanMsg (0, 0, tbl)).2.1⟩ :: cs.map initChannelState,
        (c.history.foldl scanMsg (0, 0, tbl)).2.2, ?_, ?_⟩
      · show buildGo done tbl (c :: cs) = _
        simp only [buildGo, hc]
      · simp only [List.map_append, List.map_cons, map_initChannelState_statuses]
        simp
  | cons p pre ih =>
      intro done tbl c cs e hpre hc
      have hp : p.fetchError = none := hpre p (by simp)
      have hpre' : ∀ x ∈ pre, x.fetchError = none := fun x hm => hpre x (by simp [hm])
      obtain ⟨snaps, sts, tbl2, heq, hst⟩ :=
        ih (done ++ [⟨p.channelId, ChannelStatus.COMPLETE,
          some (p.history.foldl scanMsg (0, 0, tbl)).1,
          some (p.history.foldl scanMsg (0, 0, tbl)).2.1⟩])
          (p.history.foldl scanMsg (0, 0, tbl)).2.2 c cs e hpre' hc
      refine ⟨(done ++ ⟨p.channelId, ChannelStatus.IN_PROGRESS, none, none⟩ ::
          (pre ++ c :: cs).map initChannelState) :: snaps, sts, tbl2, ?_, ?_⟩
      · show buildGo done tbl (p :: (pre ++ c :: cs)) = _
        simp only [buildGo, hp]
        rw [heq]
      · rw [hst]
        simp [List.append_assoc, List.replicate_succ]

/-- C7 — confirmed.  If the history fetch raises while scanning some
channel, the run aborts at that channel: the raised error propagates as the
result (so `build` never returns a report), every channel before the
failing one is `COMPLETE`, the failing channel is left `IN_PROGRESS`
(never marked `COMPLETE`), and every later channel is still `INCOMPLETE`
(never scanned). -/
theorem build_fetch_error_aborts (after before built_at : Timestamp)
    (pre : List ChannelInput) (c : ChannelInput) (cs : List ChannelInput)
    (e : Nat) (hpre : ∀ x ∈ pre, x.fetchError = none)
    (hc : c.fetchError = some e) :
    ∃ sts tbl,
      (build after before built_at (pre ++ c :: cs)).2 =
        Except.error (e, sts, tbl) ∧
      sts.map (fun st => st.status) =
        List.replicate pre.length ChannelStatus.COMPLETE ++
          ChannelStatus.IN_PROGRESS ::
            List.replicate cs.length ChannelStatus.INCOMPLETE := by
  obtain ⟨snaps, sts, tbl2, heq, hst⟩ :=
    buildGo_error_statuses pre [] [] c cs e hpre hc
  refine ⟨sts, tbl2, ?_, by simpa using hst⟩
  simp only [build, heq]

/-- Witness for C7's theorem: channel 0 scans cleanly, channel 1 raises
error 5. -/
theorem build_fetch_error_aborts_witness :
    (∀ x ∈ ([⟨0, [], none⟩] : List ChannelInput), x.fetchError = none) ∧
    (ChannelInput.mk 1 [] (some 5)).fetchError = some 5 ∧
    ∃ sts tbl,
      (build ⟨2024, 1, 1⟩ ⟨2024, 1, 3⟩ ⟨2024, 1, 3⟩
          ([⟨0, [], none⟩] ++ ⟨1, [], some 5⟩ :: [])).2 =
        Except.error (5, sts, tbl) ∧
      sts.map (fun st => st.status) =
        List.replicate 1 ChannelStatus.COMPLETE ++
          ChannelStatus.IN_PROGRESS :: List.replicate 0 ChannelStatus.INCOMPLETE :=
  ⟨by decide, rfl,
    build_fetch_error_aborts ⟨2024, 1, 1⟩ ⟨2024, 1, 3⟩ ⟨2024, 1, 3⟩
      [⟨0, [], none⟩] ⟨1, [], some 5⟩ [] 5 (by decide) rfl⟩

theorem snap_state_counters (done : List ChannelState) (cid : Nat)
    (cs : List ChannelInput) (om1 om2 : Option Int)
    (hdone : ∀ st ∈ done, st.status = ChannelStatus.COMPLETE ∧
      st.total_messages.isSome ∧ st.total_message_length.isSome) :
    ∀ st ∈ done ++ ⟨cid, ChannelStatus.IN_PROGRESS, om1, om2⟩ ::
        cs.map initChannelState,
      st.status = ChannelStatus.COMPLETE →
        st.total_messages.isSome ∧ st.total_message_length.isSome := by
  intro st hmem hstatus
  rcases List.mem_append.mp hmem with h | h
  · exact (hdone st h).2
  · rcases List.mem_cons.mp h with rfl | h2
    · exact absurd hstatus (by simp)
    · obtain ⟨cc, _, rfl⟩ := List.mem_map.mp h2
      exact absurd hstatus (by simp [initChannelState])

/-- Invariant of the scan loop: in every snapshot it sends, in its
successful result, and in the frozen states attached to a propagated
error, a `COMPLETE` channel state always carries both counters; the
successful result is moreover entirely `COMPLETE`. -/
theorem buildGo_complete_counters (cs : List ChannelInput) :
    ∀ (done : List ChannelState) (tbl : UserTable),
      (∀ st ∈ done, st.status = ChannelStatus.COMPLETE ∧
        st.total_messages.isSome ∧ st.total_message_length.isSome) →
      (∀ snap ∈ (buildGo done tbl cs).1, ∀ st ∈ snap,
        st.status = ChannelStatus.COMPLETE →
          st.total_messages.isSome ∧ st.total_message_length.isSome) ∧
      (∀ sts tbl2, (buildGo done tbl cs).2 = Except.ok (sts, tbl2) →
        ∀ st ∈ sts, st.status = ChannelStatus.COMPLETE ∧
          st.total_messages.isSome ∧ st.total_message_length.isSome) ∧
      (∀ e sts tbl2, (buildGo done tbl cs).2 = Except.error (e, sts, tbl2) →
        ∀ st ∈ sts, st.status = ChannelStatus.COMPLETE →
          st.total_messages.isSome ∧ st.total_message_length.isSome) := by
  induction cs with
  | nil =>
      intro done tbl hdone
      refine ⟨by simp [buildGo], ?_, by simp [buildGo]⟩
      intro sts tbl2 h
      have h' : done = sts ∧ tbl = tbl2 := by
        simpa [buildGo] using h
      rw [← h'.1]
      exact hdone
  | cons c cs ih =>
      intro done tbl hdone
      cases hc : c.fetchError with
      | some e =>
          refine ⟨?_, ?_, ?_⟩
          · intro snap hsnap st hmem hstatus
            have hsnap' : snap = done ++
                ⟨c.channelId, ChannelStatus.IN_PROGRESS, none, none⟩ ::
                  cs.map initChannelState := by
              simpa [buildGo, hc] using hsnap
            subst hsnap'
            exact snap_state_counters done c.channelId cs none none hdone st hmem hstatus
          · intro sts tbl2 h
            exact absurd h (by simp [buildGo, hc])
          · intro e2 sts tbl2 h
            have h' : e = e2 ∧ (done ++
                ⟨c.channelId, ChannelStatus.IN_PROGRESS,
                  some (c.history.foldl scanMsg (0, 0, tbl)).1,
                  some (c.history.foldl scanMsg (0, 0, tbl)).2.1⟩ ::
                  cs.map initChannelState) = sts ∧
                (c.history.foldl scanMsg (0, 0, tbl)).2.2 = tbl2 := by
              simpa [buildGo, hc] using h
            obtain ⟨-, h2, -⟩ := h'
            subst h2
            exact snap_state_counters done c.channelId cs _ _ hdone
      | none =>
          have hdone' : ∀ st ∈ done ++ [⟨c.channelId, ChannelStatus.COMPLETE,
              some (c.history.foldl scanMsg (0, 0, tbl)).1,
              some (c.history.foldl scanMsg (0, 0, tbl)).2.1⟩],
              st.status = ChannelStatus.COMPLETE ∧
                st.total_messages.isSome ∧ st.total_message_length.isSome := by
            intro st hmem
            rcases List.mem_append.mp hmem with h | h
            · exact hdone st h
            · rcases List.mem_cons.mp h with rfl | h2
              · exact ⟨rfl, rfl, rfl⟩
              · simp at h2
          obtain ⟨ih1, ih2, ih3⟩ := ih _ _ hdone'
          refine ⟨?_, ?_, ?_⟩
          · intro snap hsnap st hmem hstatus
            have hsnap' : snap = (done ++
                ⟨c.channelId, ChannelStatus.IN_PROGRESS, none, none⟩ ::
                  cs.map initChannelState) ∨
                snap ∈ (buildGo (done ++ [⟨c.channelId, ChannelStatus.COMPLETE,
                  some (c.history.foldl scanMsg (0, 0, tbl)).1,
                  some (c.history.foldl scanMsg (0, 0, tbl)).2.1⟩])
                  (c.history.foldl scanMsg (0, 0, tbl)).2.2 cs).1 := by
              simpa [buildGo, hc] using hsnap
            rcases hsnap' with rfl | h2
            · exact snap_state_counters done c.channelId cs none none hdone st hmem hstatus
            · exact ih1 snap h2 st hmem hstatus
          · intro sts tbl2 h
            apply ih2 sts tbl2
            simpa [buildGo, hc] using h
          · intro e sts tbl2 h
            apply ih3 e sts tbl2
            simpa [buildGo, hc] using h

/-- C9 — confirmed.  At every point during a run — in every progress
snapshot — a channel state whose status is `COMPLETE` has both
`total_messages` and `total_message_length` set; and when `build` returns
a report, every channel state in it is `COMPLETE` with both counters
present. -/
theorem build_complete_states_have_counters (after before built_at : Timestamp)
    (channels : List ChannelInput) :
    (∀ snap ∈ (build after before built_at channels).1, ∀ st ∈ snap,
      st.status = ChannelStatus.COMPLETE →
        st.total_messages.isSome ∧ st.total_message_length.isSome) ∧
    (∀ rep, (build after before built_at channels).2 = Except.ok rep →
      ∀ st ∈ rep.channel_states, st.status = ChannelStatus.COMPLETE ∧
        st.total_messages.isSome ∧ st.total_message_length.isSome) := by
  obtain ⟨h1, h2, h3⟩ := buildGo_complete_counters channels [] [] (by simp)
  rcases hbg : buildGo [] [] channels with ⟨snaps, res⟩
  rw [hbg] at h1 h2 h3
  simp only at h1 h2 h3
  cases res with
  | error err =>
      obtain ⟨e, sts, tbl2⟩ := err
      constructor
      · intro snap hsnap st hmem hstatus
        have hsnap' : snap = channels.map initChannelState ∨ snap ∈ snaps := by
          simpa [build, hbg] using hsnap
        rcases hsnap' with rfl | hs
        · obtain ⟨cc, -, rfl⟩ := List.mem_map.mp hmem
          exact absurd hstatus (by simp [initChannelState])
        · exact h1 snap hs st hmem hstatus
      · intro rep hrep
        exact absurd hrep (by simp [build, hbg])
  | ok val =>
      obtain ⟨sts, tbl2⟩ := val
      have hsts := h2 sts tbl2 rfl
      constructor
      · intro snap hsnap st hmem hstatus
        have hsnap' : snap = channels.map initChannelState ∨
            (snap ∈ snaps ∨ snap = sts) := by
          simpa [build, hbg] using hsnap
        rcases hsnap' with rfl | hs | rfl
        · obtain ⟨cc, -, rfl⟩ := List.mem_map.mp hmem
          exact absurd hstatus (by simp [initChannelState])
        · exact h1 snap hs st hmem hstatus
        · exact (hsts st hmem).2
      · intro rep hrep
        have hrep' : (⟨after, before, built_at, sts, tbl2⟩ : HelpChatReport) = rep := by
          simpa [build, hbg] using hrep
        subst hrep'
        exact hsts

/-- Witness for C9's theorem: a one-channel run with one two-character
message. -/
theorem build_complete_states_have_counters_witness :
    ((build ⟨2024, 1, 1⟩ ⟨2024, 1, 3⟩ ⟨2024, 1, 3⟩
        [⟨0, [⟨7, ⟨2024, 1, 1⟩, some "hi"⟩], none⟩]).2 =
      Except.ok (⟨⟨2024, 1, 1⟩, ⟨2024, 1, 3⟩, ⟨2024, 1, 3⟩,
        [⟨0, ChannelStatus.COMPLETE, some 1, some 2⟩],
        [(7, [((2024, 1, 1), 2)])]⟩ : HelpChatReport)) ∧
    ((⟨0, ChannelStatus.COMPLETE, some 1, some 2⟩ : ChannelState).status =
        ChannelStatus.COMPLETE ∧
      (⟨0, ChannelStatus.COMPLETE, some 1, some 2⟩ :
        ChannelState).total_messages.isSome ∧
      (⟨0, ChannelStatus.COMPLETE, some 1, some 2⟩ :
        ChannelState).total_message_length.isSome) := by
  refine ⟨rfl, ?_⟩
  exact (build_complete_states_have_counters ⟨2024, 1, 1⟩ ⟨2024, 1, 3⟩
    ⟨2024, 1, 3⟩ [⟨0, [⟨7, ⟨2024, 1, 1⟩, some "hi"⟩], none⟩]).2
    ⟨⟨2024, 1, 1⟩, ⟨2024, 1, 3⟩, ⟨2024, 1, 3⟩,
      [⟨0, ChannelStatus.COMPLETE, some 1, some 2⟩],
      [(7, [((2024, 1, 1), 2)])]⟩ rfl
    ⟨0, ChannelStatus.COMPLETE, some 1, some 2⟩ (by simp)

/-- Collapse consecutive duplicates: the distinct values a sampled trace
passes through, in order. -/
def collapseRuns : List ChannelStatus → List ChannelStatus
  | [] => []
  | [s] => [s]
  | s :: t :: rest =>
      if s = t then collapseRuns (t :: rest) else s :: collapseRuns (t :: rest)

/-- The status of channel `i` in one snapshot. -/
def statusAt (snap : Snapshot) (i : Nat) : ChannelStatus :=
  (snapshotStatuses snap).getD i ChannelStatus.INCOMPLETE

theorem collapseRuns_complete_run (b : Nat) :
    collapseRuns (ChannelStatus.COMPLETE :: List.replicate b ChannelStatus.COMPLETE) =
      [ChannelStatus.COMPLETE] := by
  induction b with
  | zero => rfl
  | succ b ih => simpa [List.replicate_succ, collapseRuns] using ih

theorem collapseRuns_pending_scanning_done (a b : Nat) :
    collapseRuns (List.replicate (a + 1) ChannelStatus.INCOMPLETE ++
      ChannelStatus.IN_PROGRESS :: List.replicate (b + 1) ChannelStatus.COMPLETE) =
      [ChannelStatus.INCOMPLETE, ChannelStatus.IN_PROGRESS,
        ChannelStatus.COMPLETE] := by
  induction a with
  | zero =>
      simp [List.replicate_succ, collapseRuns, collapseRuns_complete_run b]
  | succ a ih =>
      rw [List.replicate_succ, List.replicate_succ, List.cons_append,
        List.cons_append]
      rw [show collapseRuns (ChannelStatus.INCOMPLETE ::
          ChannelStatus.INCOMPLETE :: (List.replicate a ChannelStatus.INCOMPLETE ++
            ChannelStatus.IN_PROGRESS ::
              List.replicate (b + 1) ChannelStatus.COMPLETE)) =
        collapseRuns (ChannelStatus.INCOMPLETE ::
          (List.replicate a ChannelStatus.INCOMPLETE ++
            ChannelStatus.IN_PROGRESS ::
              List.replicate (b + 1) ChannelStatus.COMPLETE)) from by
        simp [collapseRuns]]
      rw [← List.cons_append, ← List.replicate_succ]
      exact ih

theorem column_value (n i j : Nat) (hi : i < n) (hj : j < n) :
    (List.replicate j ChannelStatus.COMPLETE ++ ChannelStatus.IN_PROGRESS ::
      List.replicate (n - 1 - j) ChannelStatus.INCOMPLETE).getD i
        ChannelStatus.INCOMPLETE =
    if i < j then ChannelStatus.COMPLETE
    else if i = j then ChannelStatus.IN_PROGRESS
    else ChannelStatus.INCOMPLETE := by
  rcases Nat.lt_trichotomy i j with h | h | h
  · rw [if_pos h]
    rw [List.getD_append _ _ _ _ (by simpa using h)]
    simp [List.getD_eq_getElem?_getD, List.getElem?_replicate_of_lt h]
  · subst h
    rw [if_neg (lt_irrefl i), if_pos rfl]
    rw [List.getD_append_right _ _ _ _ (by simp)]
    simp
  · rw [if_neg (by omega), if_neg (by omega)]
    rw [List.getD_append_right _ _ _ _ (by simp; omega)]
    have hidx : i - (List.replicate j ChannelStatus.COMPLETE).length =
        (i - j - 1) + 1 := by
      simp
      omega
    rw [hidx, List.getD_cons_succ]
    simp [List.getD_eq_getElem?_getD, List.getElem?_replicate_of_lt
      (show i - j - 1 < n - 1 - j by omega)]

theorem column_of_trace (n i : Nat) (hi : i < n) :
    (List.range n).map (fun j =>
      (List.replicate j ChannelStatus.COMPLETE ++ ChannelStatus.IN_PROGRESS ::
        List.replicate (n - 1 - j) ChannelStatus.INCOMPLETE).getD i
          ChannelStatus.INCOMPLETE) =
    List.replicate i ChannelStatus.INCOMPLETE ++ ChannelStatus.IN_PROGRESS ::
      List.replicate (n - 1 - i) ChannelStatus.COMPLETE := by
  have hsplit : n = i + ((n - 1 - i) + 1) := by omega
  rw [show List.range n = List.range (i + ((n - 1 - i) + 1)) from by rw [← hsplit]]
  rw [List.range_add, List.map_append, List.map_map]
  congr 1
  · apply List.eq_replicate_iff.mpr
    constructor
    · simp
    · intro s hs
      obtain ⟨j, hj, rfl⟩ := List.mem_map.mp hs
      have hjlt : j < i := List.mem_range.mp hj
      rw [column_value n i j hi (by omega)]
      rw [if_neg (by omega), if_neg (by omega)]
  · rw [List.range_succ_eq_map, List.map_cons, List.map_map]
    congr 1
    · show (List.replicate (i + 0) ChannelStatus.COMPLETE ++ _).getD i _ = _
      rw [column_value n i (i + 0) hi (by omega)]
      simp
    · apply List.eq_replicate_iff.mpr
      constructor
      · simp
      · intro s hs
        obtain ⟨j, hj, rfl⟩ := List.mem_map.mp hs
        have hjlt : j < n - 1 - i := List.mem_range.mp hj
        show (List.replicate (i + (j + 1)) ChannelStatus.COMPLETE ++ _).getD i _ = _
        rw [column_value n i (i + (j + 1)) hi (by omega)]
        rw [if_pos (by omega)]

/-- C8 — confirmed for (error-free) runs.  Reading off, per channel, the
sequence of distinct status values it assumes across the progress
snapshots of a run: it is exactly `INCOMPLETE`, then `IN_PROGRESS`, then
`COMPLETE` — no state skipped, no backward movement. -/
theorem build_channel_status_monotone (after before built_at : Timestamp)
    (channels : List ChannelInput) (h : ∀ c ∈ channels, c.fetchError = none)
    (i : Nat) (hi : i < channels.length) :
    collapseRuns (((build after before built_at channels).1).map
      (fun snap => statusAt snap i)) =
      [ChannelStatus.INCOMPLETE, ChannelStatus.IN_PROGRESS,
        ChannelStatus.COMPLETE] := by
  have hmm : ((build after before built_at channels).1).map
      (fun snap => statusAt snap i) =
      (((build after before built_at channels).1).map snapshotStatuses).map
        (fun ss => ss.getD i ChannelStatus.INCOMPLETE) := by
    rw [List.map_map]
    rfl
  rw [hmm, build_statuses after before built_at channels h]
  rw [List.map_cons, List.map_append, List.map_map]
  have h1 : (List.replicate channels.length ChannelStatus.INCOMPLETE).getD i
      ChannelStatus.INCOMPLETE = ChannelStatus.INCOMPLETE := by
    simp [List.getD_eq_getElem?_getD, List.getElem?_replicate_of_lt hi]
  have h3 : (List.replicate channels.length ChannelStatus.COMPLETE).getD i
      ChannelStatus.INCOMPLETE = ChannelStatus.COMPLETE := by
    simp [List.getD_eq_getElem?_getD, List.getElem?_replicate_of_lt hi]
  rw [show ((List.range channels.length).map
      ((fun ss => ss.getD i ChannelStatus.INCOMPLETE) ∘ (fun j =>
        List.replicate j ChannelStatus.COMPLETE ++ ChannelStatus.IN_PROGRESS ::
          List.replicate (channels.length - 1 - j) ChannelStatus.INCOMPLETE))) =
      List.replicate i ChannelStatus.INCOMPLETE ++ ChannelStatus.IN_PROGRESS ::
        List.replicate (channels.length - 1 - i) ChannelStatus.COMPLETE from
    column_of_trace channels.length i hi]
  rw [List.map_cons, List.map_nil, h1, h3]
  have hshape : ChannelStatus.INCOMPLETE ::
      ((List.replicate i ChannelStatus.INCOMPLETE ++ ChannelStatus.IN_PROGRESS ::
        List.replicate (channels.length - 1 - i) ChannelStatus.COMPLETE) ++
        [ChannelStatus.COMPLETE]) =
      List.replicate (i + 1) ChannelStatus.INCOMPLETE ++
        ChannelStatus.IN_PROGRESS ::
          List.replicate ((channels.length - 1 - i) + 1) ChannelStatus.COMPLETE := by
    rw [List.replicate_succ, show List.replicate ((channels.length - 1 - i) + 1)
        ChannelStatus.COMPLETE = List.replicate (channels.length - 1 - i)
          ChannelStatus.COMPLETE ++ [ChannelStatus.COMPLETE] from
      List.replicate_succ' _ _]
    simp [List.append_assoc]
  rw [hshape]
  exact collapseRuns_pending_scanning_done i (channels.length - 1 - i)

/-- Witness for C8's theorem: the second channel of a concrete two-channel
run. -/
theorem build_channel_status_monotone_witness :
    (∀ c ∈ ([⟨0, [], none⟩, ⟨1, [], none⟩] : List ChannelInput),
      c.fetchError = none) ∧
    1 < ([⟨0, [], none⟩, ⟨1, [], none⟩] : List ChannelInput).length ∧
    collapseRuns (((build ⟨2024, 1, 1⟩ ⟨2024, 1, 3⟩ ⟨2024, 1, 3⟩
        [⟨0, [], none⟩, ⟨1, [], none⟩]).1).map (fun snap => statusAt snap 1)) =
      [ChannelStatus.INCOMPLETE, ChannelStatus.IN_PROGRESS,
        ChannelStatus.COMPLETE] :=
  ⟨by decide, by decide,
    build_channel_status_monotone ⟨2024, 1, 1⟩ ⟨2024, 1, 3⟩ ⟨2024, 1, 3⟩
      [⟨0, [], none⟩, ⟨1, [], none⟩] (by decide) 1 (by decide)⟩

/-- Zero-padding helper for date rendering. -/
def padZeros (w : Nat) (n : Int) : String :=
  let s := toString n
  String.mk (List.replicate (w - s.length) '0') ++ s

/-- Modelled from the spec: the `DATE_FMT_YYYY_MM_DD` strftime format
string is imported from `commanderbot_ext.help_chat.utils`, which is not
among the provided sources; per the spec (section 6) dates are rendered as
`YYYY-MM-DD`. -/
def formatDateYMD (t : Timestamp) : String :=
  padZeros 4 t.year ++ "-" ++ padZeros 2 t.month ++ "-" ++ padZeros 2 t.day

/-- `HelpChatReport.get_user_results` (help_chat_report.py, lines 69-73):
one `(user_id, score, days_active)` triple per author, in the table's
insertion-iteration order; the score is the sum of the author's per-day
values and `days_active` the number of distinct day keys. -/
def getUserResults (tbl : UserTable) : List (Nat × Int × Int) :=
  tbl.map (fun ur => (ur.1, (ur.2.map (fun kv => kv.2)).sum, (ur.2.length : Int)))

/-- The comparison underlying `sorted(..., key=lambda row: -row[1])`:
ascending in the negated score. -/
def scoreDescLE (a b : Nat × Int × Int) : Bool := decide (-a.2.1 ≤ -b.2.1)

/-- `sorted(self.get_user_results(), key=lambda row: -row[1])`
(help_chat_report.py, line 77).  Python's `sorted` is a stable sort;
`List.mergeSort` is stable as well. -/
def sortUserResults (results : List (Nat × Int × Int)) : List (Nat × Int × Int) :=
  results.mergeSort scoreDescLE

/-- The header line of `build_summary_lines` (help_chat_report.py,
lines 82-88). -/
def summaryHeaderLine (r : HelpChatReport) (o : HelpChatSummaryOptions)
    (count_results : Nat) : String :=
  "Showing the top " ++ toString o.max_rows ++ " results (of " ++
    toString count_results ++ ")" ++ " with a score of at least " ++
    toString o.min_score ++ "." ++
    " A user's score is determined by summing the length of all their messages" ++
    " from " ++ formatDateYMD r.after ++ " up to " ++ formatDateYMD r.before ++
    "." ++ "\n"

/-- The row loop of `build_summary_lines` (help_chat_report.py,
lines 90-92): walk the sorted results with index `i`, stopping at the
first row with `i >= max_rows` or `score < min_score`. -/
def takeRankedGo (o : HelpChatSummaryOptions) (i : Nat) :
    List (Nat × Int × Int) → List (Nat × Int × Int)
  | [] => []
  | row :: rest =>
      if o.max_rows ≤ (i : Int) ∨ row.2.1 < o.min_score then []
      else row :: takeRankedGo o (i + 1) rest

/-- The ranked rows emitted after the header for a report and options. -/
def rankedRows (r : HelpChatReport) (o : HelpChatSummaryOptions) :
    List (Nat × Int × Int) :=
  takeRankedGo o 0 (sortUserResults (getUserResults r.user_table))

/-- One emitted row (help_chat_report.py, line 93). -/
def formatUserRow (row : Nat × Int × Int) : String :=
  "<@" ++ toString row.1 ++ ">: **" ++ toString row.2.1 ++ "**" ++
    " (" ++ toString row.2.2 ++ " days active)"

/-- `HelpChatReport.build_summary_lines` (help_chat_report.py,
lines 75-93): the header line followed by the ranked rows. -/
def buildSummaryLines (r : HelpChatReport) (o : HelpChatSummaryOptions) :
    List String :=
  summaryHeaderLine r o (sortUserResults (getUserResults r.user_table)).length ::
    (rankedRows r o).map formatUserRow

theorem scoreDescLE_trans :
    ∀ a b c, scoreDescLE a b → scoreDescLE b c → scoreDescLE a c := by
  intro a b c
  simp only [scoreDescLE, decide_eq_true_eq]
  omega

theorem scoreDescLE_total : ∀ a b, scoreDescLE a b || scoreDescLE b a := by
  intro a b
  simp only [scoreDescLE, Bool.or_eq_true, decide_eq_true_eq]
  omega

theorem pairwise_filter_of_forall {α : Type} (p : α → Bool) (R : α → α → Prop)
    (h : ∀ a b, p a = true → p b = true → R a b) (l : List α) :
    (l.filter p).Pairwise R := by
  induction l with
  | nil => simp
  | cons a l ih =>
      by_cases hp : p a = true
      · rw [List.filter_cons_of_pos hp]
        exact List.Pairwise.cons
          (fun b hb => h a b hp (List.of_mem_filter hb)) ih
      · rw [List.filter_cons_of_neg (by simpa using hp)]
        exact ih

/-- Stability of the sort: rows with any fixed score appear in the sorted
output exactly as they appear in the input. -/
theorem sortUserResults_filter_score (l : List (Nat × Int × Int)) (s : Int) :
    (sortUserResults l).filter (fun row => row.2.1 == s) =
      l.filter (fun row => row.2.1 == s) := by
  have hpair : (l.filter (fun row => row.2.1 == s)).Pairwise
      (fun a b => scoreDescLE a b = true) :=
    pairwise_filter_of_forall _ _
      (fun a b ha hb => by
        have ha' : a.2.1 = s := by simpa using ha
        have hb' : b.2.1 = s := by simpa using hb
        simp only [scoreDescLE, decide_eq_true_eq]
        omega) l
  have hsub : List.Sublist (l.filter (fun row => row.2.1 == s))
      (sortUserResults l) :=
    List.sublist_mergeSort scoreDescLE_trans scoreDescLE_total hpair
      (List.filter_sublist l)
  have hsub2 := hsub.filter (fun row => row.2.1 == s)
  rw [List.filter_filter] at hsub2
  simp only [Bool.and_self] at hsub2
  have hlen : ((sortUserResults l).filter (fun row => row.2.1 == s)).length =
      (l.filter (fun row => row.2.1 == s)).length :=
    ((List.mergeSort_perm l scoreDescLE).filter _).length_eq
  exact (hsub2.eq_of_length hlen.symm).symm

theorem sortUserResults_sorted (l : List (Nat × Int × Int)) :
    (sortUserResults l).Pairwise (fun a b => b.2.1 ≤ a.2.1) := by
  have h : (List.mergeSort l scoreDescLE).Pairwise
      (fun a b => scoreDescLE a b = true) :=
    List.sorted_mergeSort scoreDescLE_trans scoreDescLE_total l
  exact h.imp (fun {a b} hab => by
    simp only [scoreDescLE, decide_eq_true_eq] at hab
    omega)

theorem takeRankedGo_front (o : HelpChatSummaryOptions) :
    ∀ (l : List (Nat × Int × Int)) (i : Nat), takeRankedGo o i l <+: l := by
  intro l
  induction l with
  | nil => intro i; simp [takeRankedGo]
  | cons row rest ih =>
      intro i
      simp only [takeRankedGo]
      split
      · exact ⟨row :: rest, List.nil_append _⟩
      · obtain ⟨t, ht⟩ := ih (i + 1)
        exact ⟨t, by rw [List.cons_append, ht]⟩

theorem takeRankedGo_length (o : HelpChatSummaryOptions) :
    ∀ (l : List (Nat × Int × Int)) (i : Nat), (i : Int) ≤ o.max_rows →
      ((takeRankedGo o i l).length : Int) + i ≤ o.max_rows := by
  intro l
  induction l with
  | nil => intro i h; simpa [takeRankedGo] using h
  | cons row rest ih =>
      intro i h
      simp only [takeRankedGo]
      split
      next hcond => simpa using h
      next hcond =>
        push_neg at hcond
        have h2 := ih (i + 1) (by push_cast; omega)
        simp only [List.length_cons]
        push_cast at h2 ⊢
        omega

theorem takeRankedGo_min_score (o : HelpChatSummaryOptions) :
    ∀ (l : List (Nat × Int × Int)) (i : Nat),
      ∀ row ∈ takeRankedGo o i l, o.min_score ≤ row.2.1 := by
  intro l
  induction l with
  | nil => intro i row hmem; simp [takeRankedGo] at hmem
  | cons hd rest ih =>
      intro i row hmem
      simp only [takeRankedGo] at hmem
      split at hmem
      next hcond => simp at hmem
      next hcond =>
        push_neg at hcond
        rcases List.mem_cons.mp hmem with rfl | hmem2
        · omega
        · exact ih (i + 1) row hmem2

/-- C6 — confirmed.  The ranked rows emitted after the header have
non-increasing scores, number at most `max_rows` (when `max_rows` is
non-negative, as the data model requires), each has `score ≥ min_score`,
and rows with equal scores keep the author table's original iteration
order (the rows of any fixed score are an order-preserving sub-run of the
unsorted results). -/
theorem build_summary_rows_ranked (r : HelpChatReport)
    (o : HelpChatSummaryOptions) (hrows : 0 ≤ o.max_rows) :
    (rankedRows r o).Pairwise (fun a b => b.2.1 ≤ a.2.1) ∧
    ((rankedRows r o).length : Int) ≤ o.max_rows ∧
    (∀ row ∈ rankedRows r o, o.min_score ≤ row.2.1) ∧
    (∀ s : Int, (rankedRows r o).filter (fun row => row.2.1 == s) <+:
      (getUserResults r.user_table).filter (fun row => row.2.1 == s)) := by
  refine ⟨?_, ?_, ?_, ?_⟩
  · exact List.Pairwise.sublist
      (List.IsPrefix.sublist (takeRankedGo_front o _ 0))
      (sortUserResults_sorted _)
  · have h := takeRankedGo_length o
      (sortUserResults (getUserResults r.user_table)) 0 (by exact_mod_cast hrows)
    simpa using h
  · intro row hmem
    exact takeRankedGo_min_score o _ 0 row hmem
  · intro s
    have h1 := List.IsPrefix.filter (fun row => row.2.1 == s)
      (takeRankedGo_front o (sortUserResults (getUserResults r.user_table)) 0)
    rw [sortUserResults_filter_score] at h1
    exact h1

/-- Witness for C6's theorem: a concrete two-author report. -/
theorem build_summary_rows_ranked_witness :
    (0 : Int) ≤ 5 ∧
    ((rankedRows ⟨⟨2024, 1, 1⟩, ⟨2024, 1, 3⟩, ⟨2024, 1, 3⟩, [],
        [(1, [((2024, 1, 1), 5)]), (2, [((2024, 1, 2), 9)])]⟩
        ⟨100, 5, 0⟩).Pairwise (fun a b => b.2.1 ≤ a.2.1) ∧
      ((rankedRows ⟨⟨2024, 1, 1⟩, ⟨2024, 1, 3⟩, ⟨2024, 1, 3⟩, [],
        [(1, [((2024, 1, 1), 5)]), (2, [((2024, 1, 2), 9)])]⟩
        ⟨100, 5, 0⟩).length : Int) ≤ (5 : Int) ∧
      (∀ row ∈ rankedRows ⟨⟨2024, 1, 1⟩, ⟨2024, 1, 3⟩, ⟨2024, 1, 3⟩, [],
        [(1, [((2024, 1, 1), 5)]), (2, [((2024, 1, 2), 9)])]⟩
        ⟨100, 5, 0⟩, (0 : Int) ≤ row.2.1) ∧
      (∀ s : Int, (rankedRows ⟨⟨2024, 1, 1⟩, ⟨2024, 1, 3⟩, ⟨2024, 1, 3⟩, [],
          [(1, [((2024, 1, 1), 5)]), (2, [((2024, 1, 2), 9)])]⟩
          ⟨100, 5, 0⟩).filter (fun row => row.2.1 == s) <+:
        (getUserResults [(1, [((2024, 1, 1), 5)]),
          (2, [((2024, 1, 2), 9)])]).filter (fun row => row.2.1 == s))) :=
  ⟨by decide,
    build_summary_rows_ranked ⟨⟨2024, 1, 1⟩, ⟨2024, 1, 3⟩, ⟨2024, 1, 3⟩, [],
      [(1, [((2024, 1, 1), 5)]), (2, [((2024, 1, 2), 9)])]⟩
      ⟨100, 5, 0⟩ (by decide)⟩

theorem batchSummaryText_cons_ne_nil (sl : Int) (l0 : String)
    (rest : List String) : batchSummaryText sl (l0 :: rest) ≠ [] := by
  show batchGo sl "" (l0 :: rest) ≠ []
  simp only [batchGo, String.empty_append]
  split
  · exact batchGo_ne_nil sl rest _ (by simpa using append_nl_ne_empty "" l0)
  · simp

/-- C10 — confirmed.  `build_summary_lines` always yields the header line
first (before any ranked rows), so `batch_summary_text` receives a
non-empty line sequence and produces at least one batch; `summarize`'s
access to `batches[0]` therefore cannot fail for a `HelpChatReport`. -/
theorem summarize_first_batch_exists (r : HelpChatReport)
    (o : HelpChatSummaryOptions) :
    (buildSummaryLines r o).head? = some (summaryHeaderLine r o
      (sortUserResults (getUserResults r.user_table)).length) ∧
    batchSummaryText o.split_length (buildSummaryLines r o) ≠ [] :=
  ⟨rfl, batchSummaryText_cons_ne_nil o.split_length _ _⟩

/-- Witness for C10's theorem: a concrete empty-table report whose ranked
row set is empty still produces a first batch. -/
theorem summarize_first_batch_exists_witness :
    (buildSummaryLines ⟨⟨2024, 1, 1⟩, ⟨2024, 1, 3⟩, ⟨2024, 1, 3⟩, [], []⟩
        ⟨100, 5, 25⟩).head? = some (summaryHeaderLine
      ⟨⟨2024, 1, 1⟩, ⟨2024, 1, 3⟩, ⟨2024, 1, 3⟩, [], []⟩ ⟨100, 5, 25⟩
      (sortUserResults (getUserResults [])).length) ∧
    batchSummaryText (100 : Int) (buildSummaryLines
      ⟨⟨2024, 1, 1⟩, ⟨2024, 1, 3⟩, ⟨2024, 1, 3⟩, [], []⟩ ⟨100, 5, 25⟩) ≠ [] :=
  summarize_first_batch_exists
    ⟨⟨2024, 1, 1⟩, ⟨2024, 1, 3⟩, ⟨2024, 1, 3⟩, [], []⟩ ⟨100, 5, 25⟩

end CommanderBot
